import Mathlib

/-!
# Verification of the RustQuant fractional Ornstein–Uhlenbeck simulation core

Shallow embedding of `src/stochastics/fractional_ornstein_uhlenbeck.rs` over
exact rationals (`ℚ` stands in for `f64`; all the claims checked here are
about exact recurrences, shapes and control flow, not about rounding).

* `FractionalOrnsteinUhlenbeck` — the model struct (lines 14–28).
* `FractionalOrnsteinUhlenbeck.new` — the validating constructor (lines 32–41);
  the Rust `assert!` failures are modelled as `none`.
* `drift`, `diffusion`, `jump` — the `StochasticProcess` impl (lines 45–55).
* `fgn_cholesky` — the fractional Gaussian noise generator; its source is not
  part of this repository snapshot, so it is modelled from the spec (§4.1, §7).
* `euler_maruyama_core` — lines 69–89 of `euler_maruyama`, taking the noise
  series as an argument; `euler_maruyama` — the full entry point (lines 57–90),
  which draws the noise once (lines 66–67) and then runs the core.

The in-place loop `path_generator` (lines 75–81) writes `path[t+1]` from
`path[t]`, leaving `path[0]` untouched; its functional reading is the
recurrence `pathValue` below, mapped over the index range `0..=n_steps`.
-/

/-- Struct containing the Ornstein-Uhlenbeck process parameters
(`FractionalOrnsteinUhlenbeck`, source lines 14–28). -/
structure FractionalOrnsteinUhlenbeck where
  /-- The long-run mean (μ). -/
  mu : ℚ
  /-- The diffusion, or instantaneous volatility (σ). -/
  sigma : ℚ
  /-- Mean reversion parameter (θ). -/
  theta : ℚ
  /-- Hurst parameter of the process. -/
  hurst : ℚ
deriving DecidableEq, Repr

namespace FractionalOrnsteinUhlenbeck

/-- The validating constructor (source lines 32–41).
`assert!(sigma >= 0.0); assert!((0.0..=1.0).contains(&hurst));`
A failed assertion panics in Rust; here it yields `none`. -/
def new (mu sigma theta hurst : ℚ) : Option FractionalOrnsteinUhlenbeck :=
  if 0 ≤ sigma ∧ 0 ≤ hurst ∧ hurst ≤ 1 then
    some ⟨mu, sigma, theta, hurst⟩
  else
    none

/-- `fn drift(&self, x: f64, _t: f64) -> f64 { self.theta * (self.mu - x) }`
(source lines 45–47). -/
def drift (p : FractionalOrnsteinUhlenbeck) (x _t : ℚ) : ℚ :=
  p.theta * (p.mu - x)

/-- `fn diffusion(&self, _x: f64, _t: f64) -> f64 { self.sigma }`
(source lines 49–51). -/
def diffusion (p : FractionalOrnsteinUhlenbeck) (_x _t : ℚ) : ℚ :=
  p.sigma

/-- `fn jump(&self, _x: f64, _t: f64) -> Option<f64> { None }`
(source lines 53–55). -/
def jump (_p : FractionalOrnsteinUhlenbeck) (_x _t : ℚ) : Option ℚ :=
  none

end FractionalOrnsteinUhlenbeck

/-- The result carrier `Trajectories { times, paths }`. -/
structure Trajectories where
  /-- The ordered time grid. -/
  times : List ℚ
  /-- The collection of simulated paths. -/
  paths : List (List ℚ)
deriving DecidableEq, Repr

/-- Modelled from the spec: the sample values of the noise series produced by
`FractionalBrownianMotion::fgn_cholesky`, whose definition is not under
`src/`.  The concrete Gaussian/Cholesky values are not recoverable from the
spec; what the spec fixes is that the series has length exactly `steps`
(§4.1) and is computed deterministically given the random seed (§7: "all
operations are deterministic given their random seed"), so each entry is an
arbitrary but fixed deterministic pseudo-random rational derived from the
seed and the index. -/
def fgn_samples (hurst : ℚ) (steps : ℕ) (horizon : ℚ) (seed : ℕ) : List ℚ :=
  (List.range steps).map fun i =>
    hurst * horizon *
      ((((6364136223846793005 * (seed + i) + 1442695040888963407) % 2 ^ 64 : ℕ) : ℚ) / 2 ^ 64)

/-- Modelled from the spec: `FractionalBrownianMotion::fgn_cholesky` is called
at source lines 66–67 but its definition is not under `src/`.  The spec fixes
its interface (§4.1): contract
`generate(hurst: [0,1], steps: usize, horizon: >0) -> NoiseSeries` of length
`steps`, and among its edge cases "`steps = 0` is rejected (fails with an
invalid-parameter condition)" — so the generator is fallible and yields
`none` for `steps = 0`, never a silent default.  For `steps > 0` it returns
the deterministic sample series `fgn_samples`. -/
def fgn_cholesky (hurst : ℚ) (steps : ℕ) (horizon : ℚ) (seed : ℕ) : Option (List ℚ) :=
  if steps = 0 then none
  else some (fgn_samples hurst steps horizon seed)

/-- The value written into `path[t]` by the loop in `path_generator`
(source lines 75–81):
`path[t+1] = path[t] + drift(path[t], times[t]) * dt + diffusion(path[t], times[t]) * fgn[t]`,
with `path[0]` left at its initial value. -/
def pathValue (p : FractionalOrnsteinUhlenbeck) (x0 dt : ℚ) (times fgn : List ℚ) :
    ℕ → ℚ
  | 0 => x0
  | t + 1 =>
    let x := pathValue p x0 dt times fgn t
    x + p.drift x (times.getD t 0) * dt + p.diffusion x (times.getD t 0) * fgn.getD t 0

/-- The closure `path_generator` (source lines 75–81), functionally: it turns a
path buffer whose head is the initial state into the Euler–Maruyama path of
length `n_steps + 1`. -/
def path_generator (p : FractionalOrnsteinUhlenbeck) (dt : ℚ) (times fgn : List ℚ)
    (n_steps : ℕ) (path : List ℚ) : List ℚ :=
  (List.range (n_steps + 1)).map (pathValue p (path.headD 0) dt times fgn)

/-- Source lines 69–89 of `euler_maruyama`, with the noise series `fgn` as an
explicit argument:
`let dt = (t_n - t_0) / n_steps;`
`let mut paths = vec![vec![x_0; n_steps + 1]; m_paths];`
`let times = (0..=n_steps).map(|t| t_0 + dt * t).collect();`
then every path buffer is rewritten by `path_generator`, via `par_iter_mut`
when `parallel` and `iter_mut` otherwise — `rayon`'s `par_iter_mut` applies the
same closure to each (disjoint) element, so both branches are the same map. -/
def euler_maruyama_core (p : FractionalOrnsteinUhlenbeck) (x_0 t_0 t_n : ℚ)
    (n_steps m_paths : ℕ) (parallel : Bool) (fgn : List ℚ) : Trajectories :=
  let dt : ℚ := (t_n - t_0) / (n_steps : ℚ)
  let paths := List.replicate m_paths (List.replicate (n_steps + 1) x_0)
  let times : List ℚ := (List.range (n_steps + 1)).map fun (t : ℕ) => t_0 + dt * (t : ℚ)
  if parallel then
    { times := times, paths := paths.map (path_generator p dt times fgn n_steps) }
  else
    { times := times, paths := paths.map (path_generator p dt times fgn n_steps) }

/-- `fn euler_maruyama(&self, x_0, t_0, t_n, n_steps, m_paths, parallel)`
(source lines 57–90): draw one fractional-Gaussian-noise realization for the
invocation (lines 66–67, with horizon `t_n` and the model's Hurst parameter;
the random seed is made explicit), then run the core on it.  The function
itself performs no argument validation anywhere; per spec §4.3 it propagates
a Noise Generator failure unchanged, which the `Option.map` does. -/
def euler_maruyama (p : FractionalOrnsteinUhlenbeck) (x_0 t_0 t_n : ℚ)
    (n_steps m_paths : ℕ) (parallel : Bool) (seed : ℕ) : Option Trajectories :=
  (fgn_cholesky p.hurst n_steps t_n seed).map
    (euler_maruyama_core p x_0 t_0 t_n n_steps m_paths parallel)

section Helpers

/-- `getD` of a function mapped over `List.range`, inside the range. -/
lemma getD_map_range (f : ℕ → ℚ) {n i : ℕ} (h : i < n) :
    ((List.range n).map f).getD i 0 = f i := by
  rw [List.getD_eq_getElem?_getD, List.getElem?_map, List.getElem?_range h]
  rfl

/-- Every path produced by `euler_maruyama_core` is the mapped Euler–Maruyama
recurrence started at `x_0`. -/
lemma mem_paths_core (p : FractionalOrnsteinUhlenbeck) (x_0 t_0 t_n : ℚ)
    (n_steps m_paths : ℕ) (parallel : Bool) (fgn : List ℚ) (path : List ℚ)
    (hpath : path ∈ (euler_maruyama_core p x_0 t_0 t_n n_steps m_paths parallel fgn).paths) :
    path = (List.range (n_steps + 1)).map
      (pathValue p x_0 ((t_n - t_0) / (n_steps : ℚ))
        ((List.range (n_steps + 1)).map fun (t : ℕ) => t_0 + (t_n - t_0) / (n_steps : ℚ) * (t : ℚ))
        fgn) := by
  have hmem : path ∈ (List.replicate m_paths (List.replicate (n_steps + 1) x_0)).map
      (path_generator p ((t_n - t_0) / (n_steps : ℚ))
        ((List.range (n_steps + 1)).map fun (t : ℕ) => t_0 + (t_n - t_0) / (n_steps : ℚ) * (t : ℚ))
        fgn n_steps) := by
    cases parallel <;> simpa [euler_maruyama_core] using hpath
  obtain ⟨buf, hbuf, rfl⟩ := List.mem_map.mp hmem
  have hb : buf = List.replicate (n_steps + 1) x_0 := List.eq_of_mem_replicate hbuf
  subst hb
  simp [path_generator, List.replicate_succ]

/-- An in-bounds `getD` on a list of paths is a member of the list. -/
lemma getD_mem_of_lt (l : List (List ℚ)) (i : ℕ) (h : i < l.length) :
    l.getD i [] ∈ l := by
  rw [List.getD_eq_getElem?_getD, List.getElem?_eq_getElem h]
  simp [List.getElem_mem h]

/-- For a positive step count the modelled generator succeeds with the
deterministic sample series. -/
lemma fgn_cholesky_pos (hurst horizon : ℚ) (seed : ℕ) {steps : ℕ} (h : 0 < steps) :
    fgn_cholesky hurst steps horizon seed =
      some (fgn_samples hurst steps horizon seed) := by
  simp [fgn_cholesky, Nat.pos_iff_ne_zero.mp h]

end Helpers

/-- C5: constructing a `FractionalOrnsteinUhlenbeck` model fails exactly when
`sigma < 0` or the Hurst exponent lies outside `[0,1]`; it succeeds for every
`sigma ≥ 0` and Hurst exponent in `[0,1]`, and the stored parameters are
exactly the ones supplied (nothing is clamped). -/
theorem C5_construction_validation (mu sigma theta hurst : ℚ) :
    (0 ≤ sigma ∧ 0 ≤ hurst ∧ hurst ≤ 1 →
      FractionalOrnsteinUhlenbeck.new mu sigma theta hurst = some ⟨mu, sigma, theta, hurst⟩) ∧
    (sigma < 0 ∨ hurst < 0 ∨ 1 < hurst →
      FractionalOrnsteinUhlenbeck.new mu sigma theta hurst = none) := by
  constructor
  · intro h
    simp [FractionalOrnsteinUhlenbeck.new, h]
  · intro h
    have hneg : ¬(0 ≤ sigma ∧ 0 ≤ hurst ∧ hurst ≤ 1) := by
      rcases h with h | h | h
      · exact fun hc => absurd hc.1 (not_le.mpr h)
      · exact fun hc => absurd hc.2.1 (not_le.mpr h)
      · exact fun hc => absurd hc.2.2 (not_le.mpr h)
    simp [FractionalOrnsteinUhlenbeck.new, hneg]

/-- Witness for C5 at concrete inputs: the spec's scenario parameters are
accepted unchanged, and a negative volatility is rejected. -/
theorem C5_construction_validation_witness :
    FractionalOrnsteinUhlenbeck.new 0.15 0.45 0.01 0.7 = some ⟨0.15, 0.45, 0.01, 0.7⟩ ∧
    FractionalOrnsteinUhlenbeck.new 0.15 (-1) 0.01 0.7 = none :=
  ⟨(C5_construction_validation 0.15 0.45 0.01 0.7).1 (by norm_num),
   (C5_construction_validation 0.15 (-1) 0.01 0.7).2 (Or.inl (by norm_num))⟩

/-- C10: for every constructed model, `drift(x, t) = theta * (mu - x)`,
`diffusion(x, t) = sigma` independently of `x` and `t`, and `jump(x, t)`
is `None`, so the jump contribution to every step is zero. -/
theorem C10_coefficient_functions (mu sigma theta hurst x t : ℚ)
    (p : FractionalOrnsteinUhlenbeck)
    (h : FractionalOrnsteinUhlenbeck.new mu sigma theta hurst = some p) :
    p.drift x t = theta * (mu - x) ∧
    p.diffusion x t = sigma ∧
    p.jump x t = none ∧ (p.jump x t).getD 0 = 0 := by
  have hp : p = ⟨mu, sigma, theta, hurst⟩ := by
    by_cases hc : 0 ≤ sigma ∧ 0 ≤ hurst ∧ hurst ≤ 1
    · rw [FractionalOrnsteinUhlenbeck.new, if_pos hc] at h
      exact (Option.some_injective _ h).symm
    · rw [FractionalOrnsteinUhlenbeck.new, if_neg hc] at h
      exact absurd h (Option.noConfusion)
  subst hp
  refine ⟨rfl, rfl, rfl, rfl⟩

/-- Witness for C10 at the spec's scenario parameters. -/
theorem C10_coefficient_functions_witness :
    (⟨0.15, 0.45, 0.01, 0.7⟩ : FractionalOrnsteinUhlenbeck).drift 10 0 = 0.01 * (0.15 - 10) ∧
    (⟨0.15, 0.45, 0.01, 0.7⟩ : FractionalOrnsteinUhlenbeck).diffusion 10 0 = 0.45 ∧
    (⟨0.15, 0.45, 0.01, 0.7⟩ : FractionalOrnsteinUhlenbeck).jump 10 0 = none ∧
    ((⟨0.15, 0.45, 0.01, 0.7⟩ : FractionalOrnsteinUhlenbeck).jump 10 0).getD 0 = 0 :=
  C10_coefficient_functions 0.15 0.45 0.01 0.7 10 0 _
    (by norm_num [FractionalOrnsteinUhlenbeck.new])

/-- C7: with the same model, parameters and the same fixed noise input, the
parallel branch and the sequential branch of the engine produce equal
`Trajectories` — both apply the identical per-path update to the identical
inputs. -/
theorem C7_parallel_sequential_equal (p : FractionalOrnsteinUhlenbeck)
    (x_0 t_0 t_n : ℚ) (n_steps m_paths : ℕ) (fgn : List ℚ) :
    euler_maruyama_core p x_0 t_0 t_n n_steps m_paths true fgn =
    euler_maruyama_core p x_0 t_0 t_n n_steps m_paths false fgn := rfl

/-- C8: constructing the model twice with identical parameters and simulating
sequentially with the same random seed yields identical trajectories. -/
theorem C8_seeded_determinism (mu sigma theta hurst x_0 t_0 t_n : ℚ)
    (n_steps m_paths seed : ℕ) (p₁ p₂ : FractionalOrnsteinUhlenbeck)
    (h₁ : FractionalOrnsteinUhlenbeck.new mu sigma theta hurst = some p₁)
    (h₂ : FractionalOrnsteinUhlenbeck.new mu sigma theta hurst = some p₂) :
    euler_maruyama p₁ x_0 t_0 t_n n_steps m_paths false seed =
    euler_maruyama p₂ x_0 t_0 t_n n_steps m_paths false seed := by
  have h : some p₁ = some p₂ := h₁.symm.trans h₂
  rw [Option.some_injective _ h]

/-- Witness for C8 at the spec's scenario parameters and seed 0. -/
theorem C8_seeded_determinism_witness :
    euler_maruyama ⟨0.15, 0.45, 0.01, 0.7⟩ 10 0 0.5 2 2 false 0 =
    euler_maruyama ⟨0.15, 0.45, 0.01, 0.7⟩ 10 0 0.5 2 2 false 0 :=
  C8_seeded_determinism 0.15 0.45 0.01 0.7 10 0 0.5 2 2 0 _ _
    (by norm_num [FractionalOrnsteinUhlenbeck.new])
    (by norm_num [FractionalOrnsteinUhlenbeck.new])

/-- C9: for every Hurst exponent in `[0,1]`, step count `steps > 0` and
horizon `> 0`, the noise generator returns a series of length exactly `steps`,
so every access `noise[t]` made by the simulation loop for `t < steps` is in
bounds. -/
theorem C9_noise_length (hurst horizon : ℚ) (steps seed : ℕ)
    (hh₀ : 0 ≤ hurst) (hh₁ : hurst ≤ 1) (hs : 0 < steps) (hor : 0 < horizon) :
    ∃ noise, fgn_cholesky hurst steps horizon seed = some noise ∧
      noise.length = steps ∧ ∀ t < steps, t < noise.length := by
  refine ⟨fgn_samples hurst steps horizon seed, fgn_cholesky_pos hurst horizon seed hs, ?_, ?_⟩
  · simp [fgn_samples]
  · intro t ht
    simpa [fgn_samples] using ht

/-- Witness for C9 at Hurst 0.7, 3 steps, horizon 0.5, seed 0. -/
theorem C9_noise_length_witness :
    ∃ noise, fgn_cholesky 0.7 3 0.5 0 = some noise ∧
      noise.length = 3 ∧ ∀ t < 3, t < noise.length :=
  C9_noise_length 0.7 0.5 3 0 (by norm_num) (by norm_num) (by norm_num) (by norm_num)

/-- The time grid built by `euler_maruyama_core` (source line 73). -/
lemma times_core (p : FractionalOrnsteinUhlenbeck) (x_0 t_0 t_n : ℚ)
    (n_steps m_paths : ℕ) (parallel : Bool) (fgn : List ℚ) :
    (euler_maruyama_core p x_0 t_0 t_n n_steps m_paths parallel fgn).times =
      (List.range (n_steps + 1)).map
        (fun (t : ℕ) => t_0 + (t_n - t_0) / (n_steps : ℚ) * (t : ℚ)) := by
  cases parallel <;> rfl

/-- `euler_maruyama` is the core mapped over the single (fallible) noise
realization drawn at source lines 66–67. -/
lemma euler_maruyama_eq_core (p : FractionalOrnsteinUhlenbeck) (x_0 t_0 t_n : ℚ)
    (n_steps m_paths seed : ℕ) (parallel : Bool) :
    euler_maruyama p x_0 t_0 t_n n_steps m_paths parallel seed =
      (fgn_cholesky p.hurst n_steps t_n seed).map
        (euler_maruyama_core p x_0 t_0 t_n n_steps m_paths parallel) := rfl

/-- Shape of the core's result: `m_paths` paths, a time grid of length
`n_steps + 1`, every path of length `n_steps + 1` starting at `x_0`. -/
lemma core_shape (p : FractionalOrnsteinUhlenbeck) (x_0 t_0 t_n : ℚ)
    (n_steps m_paths : ℕ) (parallel : Bool) (fgn : List ℚ) :
    (euler_maruyama_core p x_0 t_0 t_n n_steps m_paths parallel fgn).paths.length = m_paths ∧
    (euler_maruyama_core p x_0 t_0 t_n n_steps m_paths parallel fgn).times.length = n_steps + 1 ∧
    ∀ path ∈ (euler_maruyama_core p x_0 t_0 t_n n_steps m_paths parallel fgn).paths,
      path.length = n_steps + 1 ∧ path.getD 0 0 = x_0 := by
  refine ⟨?_, ?_, ?_⟩
  · cases parallel <;> simp [euler_maruyama_core]
  · rw [times_core, List.length_map, List.length_range]
  · intro path hpath
    have hp := mem_paths_core p x_0 t_0 t_n n_steps m_paths parallel fgn path hpath
    subst hp
    exact ⟨by simp, getD_map_range _ (Nat.succ_pos _)⟩

/-- C1: every path of the engine's result satisfies the Euler–Maruyama
recurrence: `path[0] = x_0` and, for each step `i < n_steps`,
`path[i+1] = path[i] + drift(path[i], t[i]) * dt + diffusion(path[i], t[i]) * fgn[i]`
plus the jump contribution (`jump` or `0`), with `dt = (t_n - t_0) / n_steps`. -/
theorem C1_euler_maruyama_recurrence (p : FractionalOrnsteinUhlenbeck)
    (x_0 t_0 t_n : ℚ) (n_steps m_paths : ℕ) (parallel : Bool) (fgn : List ℚ)
    (path : List ℚ)
    (hpath : path ∈ (euler_maruyama_core p x_0 t_0 t_n n_steps m_paths parallel fgn).paths) :
    path.getD 0 0 = x_0 ∧
    ∀ i < n_steps,
      path.getD (i + 1) 0 =
        path.getD i 0
          + p.drift (path.getD i 0)
              ((euler_maruyama_core p x_0 t_0 t_n n_steps m_paths parallel fgn).times.getD i 0)
            * ((t_n - t_0) / (n_steps : ℚ))
          + p.diffusion (path.getD i 0)
              ((euler_maruyama_core p x_0 t_0 t_n n_steps m_paths parallel fgn).times.getD i 0)
            * fgn.getD i 0
          + ((p.jump (path.getD i 0)
              ((euler_maruyama_core p x_0 t_0 t_n n_steps m_paths parallel fgn).times.getD i 0)).getD 0) := by
  have hp := mem_paths_core p x_0 t_0 t_n n_steps m_paths parallel fgn path hpath
  subst hp
  rw [times_core]
  refine ⟨getD_map_range _ (Nat.succ_pos _), ?_⟩
  intro i hi
  rw [getD_map_range _ (by omega), getD_map_range _ (by omega)]
  simp only [pathValue, FractionalOrnsteinUhlenbeck.jump, Option.getD_none, add_zero]

/-- Witness for C1: the single path of a concrete one-step simulation with
unit noise satisfies the recurrence. -/
theorem C1_euler_maruyama_recurrence_witness :
    ((euler_maruyama_core ⟨10, 1, 0, 1/2⟩ 10 0 1 1 1 false [1]).paths.getD 0 []).getD 0 0 = 10 ∧
    ∀ i < 1,
      ((euler_maruyama_core ⟨10, 1, 0, 1/2⟩ 10 0 1 1 1 false [1]).paths.getD 0 []).getD (i + 1) 0 =
        ((euler_maruyama_core ⟨10, 1, 0, 1/2⟩ 10 0 1 1 1 false [1]).paths.getD 0 []).getD i 0
          + FractionalOrnsteinUhlenbeck.drift ⟨10, 1, 0, 1/2⟩
              (((euler_maruyama_core ⟨10, 1, 0, 1/2⟩ 10 0 1 1 1 false [1]).paths.getD 0 []).getD i 0)
              ((euler_maruyama_core ⟨10, 1, 0, 1/2⟩ 10 0 1 1 1 false [1]).times.getD i 0)
            * ((1 - 0) / ((1 : ℕ) : ℚ))
          + FractionalOrnsteinUhlenbeck.diffusion ⟨10, 1, 0, 1/2⟩
              (((euler_maruyama_core ⟨10, 1, 0, 1/2⟩ 10 0 1 1 1 false [1]).paths.getD 0 []).getD i 0)
              ((euler_maruyama_core ⟨10, 1, 0, 1/2⟩ 10 0 1 1 1 false [1]).times.getD i 0)
            * ([(1 : ℚ)]).getD i 0
          + ((FractionalOrnsteinUhlenbeck.jump ⟨10, 1, 0, 1/2⟩
              (((euler_maruyama_core ⟨10, 1, 0, 1/2⟩ 10 0 1 1 1 false [1]).paths.getD 0 []).getD i 0)
              ((euler_maruyama_core ⟨10, 1, 0, 1/2⟩ 10 0 1 1 1 false [1]).times.getD i 0)).getD 0) :=
  C1_euler_maruyama_recurrence ⟨10, 1, 0, 1/2⟩ 10 0 1 1 1 false [1] _
    (getD_mem_of_lt _ 0 (by simp [euler_maruyama_core]))

/-- C2: for valid parameters, the result of `euler_maruyama` holds exactly
`m_paths` paths, each of length `n_steps + 1`, and every path starts exactly
at `x_0`. -/
theorem C2_result_shape (p : FractionalOrnsteinUhlenbeck) (x_0 t_0 t_n : ℚ)
    (n_steps m_paths seed : ℕ) (parallel : Bool)
    (hn : 0 < n_steps) (hm : 0 < m_paths) (ht : t_0 < t_n) :
    ∃ traj, euler_maruyama p x_0 t_0 t_n n_steps m_paths parallel seed = some traj ∧
      traj.paths.length = m_paths ∧
      ∀ path ∈ traj.paths, path.length = n_steps + 1 ∧ path.getD 0 0 = x_0 := by
  rw [euler_maruyama_eq_core, fgn_cholesky_pos p.hurst t_n seed hn, Option.map_some']
  exact ⟨_, rfl,
    (core_shape p x_0 t_0 t_n n_steps m_paths parallel _).1,
    (core_shape p x_0 t_0 t_n n_steps m_paths parallel _).2.2⟩

/-- Witness for C2 at the spec's scenario shrunk to 2 steps and 2 paths. -/
theorem C2_result_shape_witness :
    ∃ traj, euler_maruyama ⟨0.15, 0.45, 0.01, 0.7⟩ 10 0 0.5 2 2 false 0 = some traj ∧
      traj.paths.length = 2 ∧
      ∀ path ∈ traj.paths, path.length = 2 + 1 ∧ path.getD 0 0 = 10 :=
  C2_result_shape ⟨0.15, 0.45, 0.01, 0.7⟩ 10 0 0.5 2 2 0 false
    (by norm_num) (by norm_num) (by norm_num)

/-- C3: for valid parameters, the time grid has length `n_steps + 1`, starts
exactly at `t_0`, is strictly increasing, and its last entry equals `t_n`
(exactly, in this exact-arithmetic model). -/
theorem C3_time_grid (p : FractionalOrnsteinUhlenbeck) (x_0 t_0 t_n : ℚ)
    (n_steps m_paths seed : ℕ) (parallel : Bool)
    (hn : 0 < n_steps) (ht : t_0 < t_n) :
    ∃ traj, euler_maruyama p x_0 t_0 t_n n_steps m_paths parallel seed = some traj ∧
      traj.times.length = n_steps + 1 ∧
      traj.times.getD 0 0 = t_0 ∧
      (∀ i < n_steps, traj.times.getD i 0 < traj.times.getD (i + 1) 0) ∧
      traj.times.getD n_steps 0 = t_n := by
  rw [euler_maruyama_eq_core, fgn_cholesky_pos p.hurst t_n seed hn, Option.map_some']
  have hdt : 0 < (t_n - t_0) / (n_steps : ℚ) :=
    div_pos (sub_pos.mpr ht) (by exact_mod_cast hn)
  refine ⟨_, rfl, ?_, ?_, ?_, ?_⟩ <;> rw [times_core]
  · rw [List.length_map, List.length_range]
  · rw [getD_map_range _ (Nat.succ_pos _)]
    simp
  · intro i hi
    rw [getD_map_range _ (by omega), getD_map_range _ (by omega)]
    have hcast : (i : ℚ) < ((i + 1 : ℕ) : ℚ) := by exact_mod_cast Nat.lt_succ_self i
    exact add_lt_add_left (mul_lt_mul_of_pos_left hcast hdt) t_0
  · rw [getD_map_range _ (Nat.lt_succ_self _)]
    have hne : ((n_steps : ℚ)) ≠ 0 := by exact_mod_cast hn.ne'
    field_simp

/-- Witness for C3 at the spec's scenario shrunk to 2 steps and 2 paths. -/
theorem C3_time_grid_witness :
    ∃ traj, euler_maruyama ⟨0.15, 0.45, 0.01, 0.7⟩ 10 0 0.5 2 2 false 0 = some traj ∧
      traj.times.length = 2 + 1 ∧
      traj.times.getD 0 0 = 0 ∧
      (∀ i < 2, traj.times.getD i 0 < traj.times.getD (i + 1) 0) ∧
      traj.times.getD 2 0 = 0.5 :=
  C3_time_grid ⟨0.15, 0.45, 0.01, 0.7⟩ 10 0 0.5 2 2 0 false (by norm_num) (by norm_num)

/-- Counterexample for C4: with `t_n = 1 < 2 = t_0` (so `tn <= t0`, an input
the claim says must be rejected with no `Trajectories` ever returned) and
`steps = 1` (so the noise generator is well inside its contract), the entry
point performs the full simulation and returns a well-formed `Trajectories`:
one path, time grid `[2, 1]`, and the path started at `x_0`. -/
theorem C4_counterexample :
    (euler_maruyama ⟨1, 1, 1, 1/2⟩ 10 2 1 1 1 false 0).isSome = true ∧
    ((euler_maruyama ⟨1, 1, 1, 1/2⟩ 10 2 1 1 1 false 0).getD ⟨[], []⟩).paths.length = 1 ∧
    ((euler_maruyama ⟨1, 1, 1, 1/2⟩ 10 2 1 1 1 false 0).getD ⟨[], []⟩).times = [2, 1] ∧
    (((euler_maruyama ⟨1, 1, 1, 1/2⟩ 10 2 1 1 1 false 0).getD ⟨[], []⟩).paths.getD 0 []).getD 0 0
      = 10 := by
  rw [euler_maruyama_eq_core, fgn_cholesky_pos _ _ _ one_pos, Option.map_some',
    Option.getD_some]
  refine ⟨rfl, ?_, ?_, ?_⟩
  · simp [euler_maruyama_core]
  · rw [times_core]
    norm_num [List.range_succ]
  · simp [euler_maruyama_core, path_generator, List.range_succ, pathValue]

/-- C4 as amended: the simulation entry point performs no validation of its
own.  A call with `steps = 0` fails, but only because the (spec-modelled)
noise generator rejects `steps = 0` and the failure propagates; for
`paths = 0` or `tn <= t0` with `steps > 0` nothing is rejected and the call
returns a `Trajectories` of the usual shape (`paths` of the requested length,
`times` of length `steps + 1`, every path of length `steps + 1` starting at
`x_0`). -/
theorem C4_amended_no_call_site_validation (p : FractionalOrnsteinUhlenbeck)
    (x_0 t_0 t_n : ℚ) (n_steps m_paths seed : ℕ) (parallel : Bool) :
    (n_steps = 0 →
      euler_maruyama p x_0 t_0 t_n n_steps m_paths parallel seed = none) ∧
    (0 < n_steps → m_paths = 0 ∨ t_n ≤ t_0 →
      ∃ traj, euler_maruyama p x_0 t_0 t_n n_steps m_paths parallel seed = some traj ∧
        traj.paths.length = m_paths ∧
        traj.times.length = n_steps + 1 ∧
        ∀ path ∈ traj.paths, path.length = n_steps + 1 ∧ path.getD 0 0 = x_0) := by
  constructor
  · intro h0
    subst h0
    rw [euler_maruyama_eq_core]
    simp [fgn_cholesky]
  · intro hn _h
    rw [euler_maruyama_eq_core, fgn_cholesky_pos p.hurst t_n seed hn, Option.map_some']
    exact ⟨_, rfl, core_shape p x_0 t_0 t_n n_steps m_paths parallel _⟩

/-- Witness for the amended C4: zero steps fail (by generator rejection);
zero paths with one step and `tn < t0` yield a result of the usual shape. -/
theorem C4_amended_no_call_site_validation_witness :
    euler_maruyama ⟨1, 1, 1, 1/2⟩ 10 0 1 0 3 false 0 = none ∧
    ∃ traj, euler_maruyama ⟨1, 1, 1, 1/2⟩ 10 2 1 1 0 false 0 = some traj ∧
      traj.paths.length = 0 ∧
      traj.times.length = 1 + 1 ∧
      ∀ path ∈ traj.paths, path.length = 1 + 1 ∧ path.getD 0 0 = 10 :=
  ⟨(C4_amended_no_call_site_validation ⟨1, 1, 1, 1/2⟩ 10 0 1 0 3 0 false).1 rfl,
   (C4_amended_no_call_site_validation ⟨1, 1, 1, 1/2⟩ 10 2 1 1 0 0 false).2
     (by norm_num) (Or.inl rfl)⟩

/-- C6: one noise realization is drawn per invocation (source lines 66–67) and
shared by every path, all paths start at the same `x_0`, and the update rule
is deterministic given the noise — so any two paths in the result of one call
are equal element-by-element. -/
theorem C6_shared_noise_identical_paths (p : FractionalOrnsteinUhlenbeck)
    (x_0 t_0 t_n : ℚ) (n_steps m_paths seed : ℕ) (parallel : Bool)
    (traj : Trajectories) (pa pb : List ℚ)
    (htraj : euler_maruyama p x_0 t_0 t_n n_steps m_paths parallel seed = some traj)
    (ha : pa ∈ traj.paths) (hb : pb ∈ traj.paths) :
    pa = pb := by
  rw [euler_maruyama_eq_core] at htraj
  obtain ⟨fgn, _hfgn, rfl⟩ := Option.map_eq_some'.mp htraj
  rw [mem_paths_core p x_0 t_0 t_n n_steps m_paths parallel fgn pa ha,
      mem_paths_core p x_0 t_0 t_n n_steps m_paths parallel fgn pb hb]

/-- Witness for C6: in a concrete two-path simulation, the first and second
paths coincide. -/
theorem C6_shared_noise_identical_paths_witness :
    ((euler_maruyama ⟨1, 1, 1, 1/2⟩ 10 0 1 1 2 false 0).getD ⟨[], []⟩).paths.getD 0 [] =
    ((euler_maruyama ⟨1, 1, 1, 1/2⟩ 10 0 1 1 2 false 0).getD ⟨[], []⟩).paths.getD 1 [] :=
  C6_shared_noise_identical_paths ⟨1, 1, 1, 1/2⟩ 10 0 1 1 2 0 false _ _ _
    (by rw [euler_maruyama_eq_core, fgn_cholesky_pos _ _ _ one_pos]; rfl)
    (getD_mem_of_lt _ 0 (by
      rw [euler_maruyama_eq_core, fgn_cholesky_pos _ _ _ one_pos, Option.map_some',
        Option.getD_some]
      simp [euler_maruyama_core]))
    (getD_mem_of_lt _ 1 (by
      rw [euler_maruyama_eq_core, fgn_cholesky_pos _ _ _ one_pos, Option.map_some',
        Option.getD_some]
      simp [euler_maruyama_core]))
